import Mathlib

/-!
# Verification of the attic_viewer core (shallow embedding)

This file embeds, in Lean 4, the parts of the attic_viewer repository that
the specification's claims are about:

* the coordinate-frame swizzles of `MujocoSimulationManager`
  (`getPosition` / `toMujocoPos`),
* the ground-plane injection `addGroundPlane` over an XML element tree,
* the simulation state machine (`startSimulation` / `pauseSimulation` /
  `toggleSimulation` / `clearScene`) together with the UI-level
  `SimulationHandler.handleMujocoToggleSimulate`,
* the applied-force handling of the per-frame stepping loop of `update`,
* the time-synchronisation / catch-up loop of `update`,
* `GeometryType.clone` over an explicit heap (JS objects are references),
* `XacroAdapter.loadFileFromMap` and `XacroAdapter.findFileInMapByPath`,
* the `UnifiedRobotModel` add/get accessors over JS `Map` semantics.

Machine floats are modelled as rationals; JS `Map`s as association lists
with insertion-order iteration and replace-on-set semantics, matching the
ECMAScript specification of `Map.set` / `Map.get`.
-/

namespace AtticViewer

/-! ## Vectors and the render/engine coordinate swizzles

`MujocoSimulationManager.toMujocoPos` (source line 790-792):
`target.set(target.x, -target.z, target.y)`.

`MujocoSimulationManager.getPosition` (source line 659-673), in its
default `swizzle = true` mode, reads an engine vector `(a, b, c)` and
writes the render vector `(a, c, -b)`.
-/

/-- A 3-vector with rational coordinates (stand-in for `THREE.Vector3`). -/
structure Vec3 where
  x : ℚ
  y : ℚ
  z : ℚ
  deriving DecidableEq, Repr

/-- `toMujocoPos`: render (Three.js, Y-up) coordinates to engine (MuJoCo,
Z-up) coordinates: `(x, y, z) ↦ (x, -z, y)`. -/
def toMujocoPos (v : Vec3) : Vec3 :=
  { x := v.x, y := -v.z, z := v.y }

/-- The position swizzle of `getPosition` (with `swizzle = true`): engine
coordinates `(a, b, c)` to render coordinates `(a, c, -b)`. -/
def getPositionSwizzle (v : Vec3) : Vec3 :=
  { x := v.x, y := v.z, z := -v.y }

/-! ## The `UnifiedRobotModel` accessors (src/unnamed/part_001)

`links`, `joints`, `materials`, `constraints` are JS `Map`s.  We model a
`Map` as an association list; `Map.set` replaces the value of an existing
key in place (keeping its position) and otherwise appends, and `Map.get`
returns the value of the (unique in a real `Map`) matching key. -/

/-- ECMAScript `Map.prototype.set`: if the key is present, overwrite its
value in place; otherwise append the new entry at the end. -/
def jsMapSet {α : Type} (m : List (String × α)) (k : String) (v : α) :
    List (String × α) :=
  if m.any (fun kv => kv.1 = k) then
    m.map (fun kv => if kv.1 = k then (k, v) else kv)
  else
    m ++ [(k, v)]

/-- ECMAScript `Map.prototype.get`: value of the first matching key. -/
def jsMapGet {α : Type} (m : List (String × α)) (k : String) : Option α :=
  (m.find? (fun kv => kv.1 = k)).map (fun kv => kv.2)

/-- `Link` (src/unnamed/part_001).  Render handles (`threeObject`) and
free-form `userData` are opaque to the core and omitted; visual and
collision geometries are referenced by name. -/
structure Link where
  name : String
  visuals : List String := []
  collisions : List String := []
  deriving DecidableEq, Repr

/-- `Joint` (src/unnamed/part_001), scalar fields. -/
structure Joint where
  name : String
  type : String := "fixed"
  parent : Option String := none
  child : Option String := none
  currentValue : ℚ := 0
  deriving DecidableEq, Repr

/-- `Constraint` (src/unnamed/part_001), scalar fields. -/
structure Constraint where
  name : String
  type : String := "connect"
  body1 : Option String := none
  body2 : Option String := none
  joint1 : Option String := none
  joint2 : Option String := none
  distance : Option ℚ := none
  deriving DecidableEq, Repr

/-- `UnifiedRobotModel` (src/unnamed/part_001): the aggregate root, with
its name-keyed maps of links, joints and constraints. -/
structure UnifiedRobotModel where
  name : String := ""
  links : List (String × Link) := []
  joints : List (String × Joint) := []
  constraints : List (String × Constraint) := []
  rootLink : Option String := none
  deriving DecidableEq, Repr

/-- `addLink(link) { this.links.set(link.name, link); }` -/
def UnifiedRobotModel.addLink (m : UnifiedRobotModel) (l : Link) :
    UnifiedRobotModel :=
  { m with links := jsMapSet m.links l.name l }

/-- `addJoint(joint) { this.joints.set(joint.name, joint); }` -/
def UnifiedRobotModel.addJoint (m : UnifiedRobotModel) (j : Joint) :
    UnifiedRobotModel :=
  { m with joints := jsMapSet m.joints j.name j }

/-- `addConstraint(c) { this.constraints.set(c.name, c); }` -/
def UnifiedRobotModel.addConstraint (m : UnifiedRobotModel) (c : Constraint) :
    UnifiedRobotModel :=
  { m with constraints := jsMapSet m.constraints c.name c }

/-- `getLink(name) { return this.links.get(name); }` -/
def UnifiedRobotModel.getLink (m : UnifiedRobotModel) (n : String) :
    Option Link :=
  jsMapGet m.links n

/-- `getJoint(name) { return this.joints.get(name); }` -/
def UnifiedRobotModel.getJoint (m : UnifiedRobotModel) (n : String) :
    Option Joint :=
  jsMapGet m.joints n

/-- `getConstraint(name) { return this.constraints.get(name); }` -/
def UnifiedRobotModel.getConstraint (m : UnifiedRobotModel) (n : String) :
    Option Constraint :=
  jsMapGet m.constraints n

/-- Keys of an association-list map. -/
def mapKeys {α : Type} (m : List (String × α)) : List String :=
  m.map (fun kv => kv.1)

/-! Generic laws about `jsMapSet` / `jsMapGet`. -/

theorem mapKeys_replace {α : Type} (m : List (String × α)) (k : String)
    (v : α) :
    mapKeys (m.map (fun kv => if kv.1 = k then (k, v) else kv)) = mapKeys m := by
  unfold mapKeys
  rw [List.map_map]
  apply List.map_congr_left
  intro kv _
  by_cases hk : kv.1 = k
  · simp [hk]
  · simp [hk]

theorem find?_replace_of_mem {α : Type} (m : List (String × α)) (k : String)
    (v : α) (h : ∃ kv ∈ m, kv.1 = k) :
    (m.map (fun kv => if kv.1 = k then (k, v) else kv)).find?
      (fun kv => kv.1 = k) = some (k, v) := by
  induction m with
  | nil => simp at h
  | cons kv m ih =>
    by_cases hk : kv.1 = k
    · simp only [List.map_cons, if_pos hk]
      exact List.find?_cons_of_pos _ (by simp)
    · simp only [List.map_cons, if_neg hk]
      rw [List.find?_cons_of_neg _ (by simpa using hk)]
      apply ih
      rcases h with ⟨kv', hkv', hk'⟩
      rcases List.mem_cons.mp hkv' with rfl | hmem
      · exact absurd hk' hk
      · exact ⟨kv', hmem, hk'⟩

theorem find?_append_singleton_of_none {α : Type} (m : List (String × α))
    (k : String) (v : α) (h : ∀ kv ∈ m, kv.1 ≠ k) :
    (m ++ [(k, v)]).find? (fun kv => kv.1 = k) = some (k, v) := by
  induction m with
  | nil => simp [List.find?]
  | cons kv m ih =>
    have hk : kv.1 ≠ k := h kv (by simp)
    rw [List.cons_append, List.find?_cons_of_neg _ (by simpa using hk)]
    exact ih fun x hx => h x (List.mem_cons_of_mem _ hx)

theorem jsMapGet_jsMapSet_self {α : Type} (m : List (String × α))
    (k : String) (v : α) : jsMapGet (jsMapSet m k v) k = some v := by
  unfold jsMapGet jsMapSet
  by_cases h : m.any (fun kv => kv.1 = k)
  · rw [if_pos h]
    rw [find?_replace_of_mem m k v (by simpa using List.any_eq_true.mp h)]
    rfl
  · rw [if_neg h]
    rw [Bool.not_eq_true, List.any_eq_false] at h
    rw [find?_append_singleton_of_none m k v (fun kv hkv => by simpa using h kv hkv)]
    rfl

theorem mapKeys_jsMapSet {α : Type} (m : List (String × α))
    (k : String) (v : α) :
    mapKeys (jsMapSet m k v) =
      if m.any (fun kv => kv.1 = k) then mapKeys m else mapKeys m ++ [k] := by
  unfold jsMapSet
  by_cases h : m.any (fun kv => kv.1 = k)
  · rw [if_pos h, if_pos h, mapKeys_replace]
  · rw [if_neg h, if_neg h]
    unfold mapKeys
    simp

theorem not_mem_mapKeys_of_not_any {α : Type} (m : List (String × α))
    (k : String) (h : ¬ m.any (fun kv => kv.1 = k)) : k ∉ mapKeys m := by
  rw [Bool.not_eq_true, List.any_eq_false] at h
  intro hmem
  obtain ⟨kv, hkv, hfst⟩ := List.mem_map.mp hmem
  exact absurd (by simpa using hfst) (by simpa using h kv hkv)

theorem jsMapSet_preserves_nodup {α : Type} (m : List (String × α))
    (k : String) (v : α) (h : (mapKeys m).Nodup) :
    (mapKeys (jsMapSet m k v)).Nodup := by
  rw [mapKeys_jsMapSet]
  by_cases hmem : m.any (fun kv => kv.1 = k)
  · rw [if_pos hmem]; exact h
  · rw [if_neg hmem]
    rw [List.nodup_append]
    exact ⟨h, List.nodup_singleton k,
      fun a ha => by
        simp only [List.mem_singleton]
        intro hak
        exact not_mem_mapKeys_of_not_any m k hmem (hak ▸ ha)⟩

theorem mem_mapKeys_jsMapSet {α : Type} (m : List (String × α))
    (k : String) (v : α) : k ∈ mapKeys (jsMapSet m k v) := by
  rw [mapKeys_jsMapSet]
  by_cases hmem : m.any (fun kv => kv.1 = k)
  · rw [if_pos hmem]
    obtain ⟨kv, hkv, hk⟩ := List.any_eq_true.mp hmem
    exact List.mem_map.mpr ⟨kv, hkv, by simpa using hk⟩
  · rw [if_neg hmem]; simp

/-- After a `set`, the key occurs exactly once among the keys, provided the
keys were duplicate-free before (JS `Map`s always are). -/
theorem jsMapSet_count_one {α : Type} (m : List (String × α))
    (k : String) (v : α) (h : (mapKeys m).Nodup) :
    (mapKeys (jsMapSet m k v)).count k = 1 :=
  List.count_eq_one_of_mem (jsMapSet_preserves_nodup m k v h)
    (mem_mapKeys_jsMapSet m k v)

/-- Setting an already-present key keeps the number of entries unchanged
(replace, not duplicate). -/
theorem jsMapSet_length_of_mem {α : Type} (m : List (String × α))
    (k : String) (v : α) (h : m.any (fun kv => kv.1 = k)) :
    (jsMapSet m k v).length = m.length := by
  unfold jsMapSet
  rw [if_pos h, List.length_map]

/-! ## The `MujocoSimulationManager` state machine

An abstraction of the mutable fields of `MujocoSimulationManager`
(src/src/renderer/MujocoSimulationManager.js) that
`startSimulation` / `pauseSimulation` / `toggleSimulation` / `clearScene`
read and write.  Nullable JS handles are modelled by a `Bool` presence
flag plus, where the claims need it, the attribute the code mutates on
them (`visible`, `enabled`).  The staged `/working` virtual-filesystem
directory is a list of entry names. -/

structure ManagerState where
  /-- `this.mujoco` non-null (WASM module initialised). -/
  mujocoInit : Bool
  /-- `this.isOldAPI`. -/
  isOldAPI : Bool
  /-- `this.model` non-null. -/
  model : Bool
  /-- `this.data` non-null (old API only). -/
  data : Bool
  /-- `this.simulation` non-null (new API only). -/
  simulation : Bool
  /-- `this.state` non-null (new API only). -/
  stateHandle : Bool
  /-- `this.mujocoRoot` non-null. -/
  mujocoRoot : Bool
  /-- `this.mujocoRoot.visible` (meaningful when `mujocoRoot`). -/
  mujocoRootVisible : Bool
  /-- `this.mujocoRoot.parent` non-null (attached to the scene). -/
  mujocoRootAttached : Bool
  /-- `this.dragStateManager` non-null. -/
  dragStateManager : Bool
  /-- Whether the physics drag controller is enabled. -/
  dragStateEnabled : Bool
  /-- `this.originalModel` non-null. -/
  originalModel : Bool
  /-- Names of the bodies in `this.bodies`. -/
  bodies : List String
  /-- Entries of the staged `/working` virtual-filesystem directory. -/
  vfsWorking : List String
  /-- `sceneManager.currentModel` (with a `threeObject`) non-null. -/
  staticModel : Bool
  /-- `sceneManager.currentModel.threeObject.visible`. -/
  staticModelVisible : Bool
  /-- `sceneManager.dragControls` non-null. -/
  dragControls : Bool
  /-- `sceneManager.dragControls.enabled`. -/
  dragControlsEnabled : Bool
  /-- `this.isLoaded`. -/
  isLoaded : Bool
  /-- `this.isSimulating`. -/
  isSimulating : Bool
  /-- `this.params.paused`. -/
  paused : Bool
  deriving DecidableEq, Repr

/-- `startSimulation` (source lines 817-848): unpause, show the physics
render tree (attaching it if needed), hide the static model, enable the
physics drag controller, disable the static model's drag controls. -/
def startSimulation (s : ManagerState) : ManagerState :=
  { s with
    paused := false
    isSimulating := true
    mujocoRootAttached := s.mujocoRootAttached || s.mujocoRoot
    mujocoRootVisible := if s.mujocoRoot then true else s.mujocoRootVisible
    staticModelVisible := if s.staticModel then false else s.staticModelVisible
    dragStateEnabled := if s.dragStateManager then true else s.dragStateEnabled
    dragControlsEnabled := if s.dragControls then false else s.dragControlsEnabled }

/-- `pauseSimulation` (source lines 853-871): pause, disable physics drag,
hide the physics render tree, re-enable the static model's drag controls
(the static model's own visibility is restored by `SimulationHandler`,
not here). -/
def pauseSimulation (s : ManagerState) : ManagerState :=
  { s with
    paused := true
    isSimulating := false
    dragStateEnabled := if s.dragStateManager then false else s.dragStateEnabled
    mujocoRootVisible := if s.mujocoRoot then false else s.mujocoRootVisible
    dragControlsEnabled := if s.dragControls then true else s.dragControlsEnabled }

/-- `toggleSimulation` (source lines 876-883): start if paused, else
pause; returns `!paused` of the resulting state. -/
def toggleSimulation (s : ManagerState) : ManagerState × Bool :=
  let s' := if s.paused then startSimulation s else pauseSimulation s
  (s', !s'.paused)

/-- `SimulationHandler.handleMujocoToggleSimulate` (src/unnamed/part_004),
on the already-loaded path (`hasScene()` true): toggle the simulation,
then set the static model's visibility to the negation of the returned
simulating flag. -/
def handleMujocoToggleSimulate (s : ManagerState) : ManagerState × Bool :=
  let r := toggleSimulation s
  ({ r.1 with
      staticModelVisible :=
        if r.1.staticModel then !r.2 else r.1.staticModelVisible },
    r.2)

/-- `clearScene` (source lines 888-961): release engine handles per API
generation, clear the `/working` virtual filesystem (when the WASM module
exists), detach and drop the physics render tree, disable and drop the
drag manager, reset all bookkeeping to the unloaded state. -/
def clearScene (s : ManagerState) : ManagerState :=
  { s with
    data := if s.isOldAPI then false else s.data
    model := false
    simulation := if s.isOldAPI then s.simulation else false
    stateHandle := if s.isOldAPI then s.stateHandle else false
    vfsWorking := if s.mujocoInit then [] else s.vfsWorking
    mujocoRoot := false
    mujocoRootVisible := s.mujocoRootVisible
    mujocoRootAttached := false
    dragStateManager := false
    dragStateEnabled := if s.dragStateManager then false else s.dragStateEnabled
    originalModel := false
    bodies := []
    isLoaded := false
    isSimulating := false
    paused := true }

/-! ## Applied-force handling in the stepping loop of `update`

Source lines 714-770.  Within each iteration of the `while` loop, in the
old-API branch, every entry of `data.qfrc_applied` is zeroed; then, if a
drag is active, `mj_applyFT` accumulates the drag's generalised-force
contribution into the array; finally `mj_step` runs.  `mj_applyFT` is the
physics engine's force-accumulation entry point (external interface):
modelled as pointwise addition of an opaque contribution vector. -/

/-- The zeroing loop `for (i...) data.qfrc_applied[i] = 0.0`. -/
def zeroForces (qfrc : List ℚ) : List ℚ :=
  qfrc.map (fun _ => 0)

/-- `mj_applyFT` (engine interface): accumulate a generalised-force
contribution into the applied-force array. -/
def applyFT (qfrc contrib : List ℚ) : List ℚ :=
  qfrc.zipWith (· + ·) contrib

/-- The value `data.qfrc_applied` holds when `mj_step` executes, as a
function of its previous value and the optional drag contribution of the
current iteration (old-API branch of the update loop; the new-API branch
never touches the array). -/
def preStepForces (isOldAPI : Bool) (drag : Option (List ℚ))
    (qfrc : List ℚ) : List ℚ :=
  if isOldAPI then
    match drag with
    | some contrib => applyFT (zeroForces qfrc) contrib
    | none => zeroForces qfrc
  else qfrc

theorem zeroForces_eq_replicate (qfrc : List ℚ) :
    zeroForces qfrc = List.replicate qfrc.length 0 := by
  unfold zeroForces
  induction qfrc with
  | nil => rfl
  | cons a l ih => simp [List.replicate_succ, ih]

/-! ## Path-string primitives

The JS string operations used by `XacroAdapter` (`startsWith`,
`substring`, `split('/')`, `pop()`, `indexOf`, the anchored regex
replacements), implemented structurally over the character list of a
`String`.  File paths here are ASCII, so JS's UTF-16 index arithmetic
coincides with character counting. -/

/-- `s.startsWith(pre)`. -/
def strStartsWith (pre s : String) : Bool :=
  pre.data.isPrefixOf s.data

/-- `s.substring(n)` (ASCII). -/
def strDrop (n : Nat) (s : String) : String :=
  ⟨s.data.drop n⟩

/-- String concatenation (JS `+`). -/
def strAppend (a b : String) : String :=
  ⟨a.data ++ b.data⟩

/-- `s.replace(/^\.\//, '')`: strip one leading `./`. -/
def stripDotSlash (s : String) : String :=
  if strStartsWith "./" s then strDrop 2 s else s

/-- `s.replace(/^\/+/, '')`: strip all leading slashes. -/
def stripLeadingSlashes (s : String) : String :=
  ⟨s.data.dropWhile (fun c => c = '/')⟩

/-- `s.split('/')` on the character list. -/
def splitSlashChars : List Char → List (List Char)
  | [] => [[]]
  | c :: cs =>
    match splitSlashChars cs with
    | r :: rs => if c = '/' then [] :: r :: rs else (c :: r) :: rs
    | [] => [[c]]

/-- `s.split('/')`. -/
def splitSlash (s : String) : List String :=
  (splitSlashChars s.data).map (fun cs => ⟨cs⟩)

/-- `s.split('/').pop()`: the basename of a path. -/
def pathBasename (s : String) : String :=
  (splitSlash s).getLastD ""

/-- `s.includes('/')`. -/
def containsSlash (s : String) : Bool :=
  s.data.contains '/'

/-- `s.substring(s.indexOf('/') + 1)`: everything after the first `/`. -/
def afterFirstSlash (s : String) : String :=
  ⟨(s.data.dropWhile (fun c => c ≠ '/')).drop 1⟩

/-- `parts.join('/')`. -/
def joinSlash : List String → String
  | [] => ""
  | [x] => x
  | x :: xs => strAppend (strAppend x "/") (joinSlash xs)

/-- Strip a `package://pkg/` prefix: remove the scheme, then drop the
first path component (the package name) when one exists.  This is the
shared pattern of `findFileInMapByPath` (lines 439-445) and the
`urlModifier` (lines 178-184). -/
def stripPackagePrefix (s : String) : String :=
  if strStartsWith "package://" s then
    let meshPath := strDrop 10 s
    let parts := splitSlash meshPath
    if parts.length > 1 then joinSlash (parts.drop 1) else meshPath
  else s

/-- Strip a `blob:<origin>/` prefix (`s.replace(/^blob:[^\/]+\//, '')`). -/
def stripBlobPrefix (s : String) : String :=
  if strStartsWith "blob:" s then
    let rest := (strDrop 5 s).data
    let seg := rest.takeWhile (fun c => c ≠ '/')
    if seg.length > 0 ∧ rest.contains '/' then ⟨rest.drop (seg.length + 1)⟩
    else s
  else s

/-! ## `XacroAdapter.findFileInMapByPath` (source lines 432-471)

Strips `blob:`/`package://` prefixes and a leading `./`, then tries the
`urdfDir`-prefixed path, the bare path, and finally a basename scan over
the whole bundle, returning the first hit. -/

/-- The normalised mesh path `findFileInMapByPath` computes from its
`path` argument before any bundle lookup. -/
def meshPathOf (path : String) : String :=
  stripDotSlash (stripPackagePrefix (stripBlobPrefix path))

/-- `XacroAdapter.findFileInMapByPath`.  The bundle is the uploaded file
map (key → file content). -/
def findFileInMapByPath (path : String) (fileMap : List (String × String))
    (urdfDir : String) : Option String :=
  let meshPath := meshPathOf path
  let fullPath := strAppend urdfDir meshPath
  match jsMapGet fileMap fullPath with
  | some f => some f
  | none =>
    match jsMapGet fileMap meshPath with
    | some f => some f
    | none =>
      let targetFileName := pathBasename meshPath
      (fileMap.find? (fun kv => pathBasename kv.1 = targetFileName)).map
        (fun kv => kv.2)

/-! ## `XacroAdapter.loadFileFromMap` (source lines 304-345)

Resolves a `xacro:include` path against the uploaded bundle.  The cleaned
path drops one leading `/` and one leading `./`; five candidate paths are
tried in order, then a basename-only scan over the bundle entries; if
nothing matches the adapter throws `Cannot find included file: <path>`,
which aborts the whole Xacro expansion. -/

/-- The cleaned include path (`cleanPath` in the source). -/
def cleanedPath (path : String) : String :=
  stripDotSlash (if strStartsWith "/" path then strDrop 1 path else path)

/-- The `possiblePaths` array of `loadFileFromMap`, in source order. -/
def possiblePaths (path workingPath : String) : List String :=
  let cleanPath := cleanedPath path
  [cleanPath,
   strAppend workingPath cleanPath,
   path,
   strAppend workingPath (stripLeadingSlashes path),
   if containsSlash cleanPath then afterFirstSlash cleanPath else cleanPath]

/-- The `for (const tryPath of possiblePaths)` loop with early return. -/
def tryPathsLoop (fileMap : List (String × String)) :
    List String → Option String
  | [] => none
  | p :: ps =>
    match jsMapGet fileMap p with
    | some content => some content
    | none => tryPathsLoop fileMap ps

/-- The `for (const [key, file] of fileMap.entries())` basename scan with
early return. -/
def scanByFileName (fileName : String) :
    List (String × String) → Option String
  | [] => none
  | kv :: rest =>
    if pathBasename kv.1 = fileName then some kv.2
    else scanByFileName fileName rest

/-- `XacroAdapter.loadFileFromMap`; `.error` models the thrown
`Cannot find included file` exception (fatal to the load). -/
def loadFileFromMap (path : String) (fileMap : List (String × String))
    (workingPath : String) : Except String String :=
  match tryPathsLoop fileMap (possiblePaths path workingPath) with
  | some content => .ok content
  | none =>
    match scanByFileName (pathBasename (cleanedPath path)) fileMap with
    | some content => .ok content
    | none => .error (strAppend "Cannot find included file: " path)

/-- The resolution procedure exactly as the claim words it: try the
cleaned literal path, then the workingPath-prefixed path, then a
filename-only fallback over all bundle keys, in that order; error
otherwise.  (Spec-worded definition, for comparison with the source's
`loadFileFromMap`.) -/
def loadFileFromMapClaimed (path : String) (fileMap : List (String × String))
    (workingPath : String) : Except String String :=
  let cleanPath := cleanedPath path
  match [cleanPath, strAppend workingPath cleanPath].findSome?
      (fun p => jsMapGet fileMap p) with
  | some content => .ok content
  | none =>
    match fileMap.find? (fun kv => pathBasename kv.1 = pathBasename cleanPath) with
    | some kv => .ok kv.2
    | none => .error (strAppend "Cannot find included file: " path)

/-- The resolution procedure with the full candidate list the source
actually tries (the amended claim), phrased with first-match combinators:
the first bundle hit among `possiblePaths` — cleaned path, workingPath +
cleaned path, the raw path, workingPath + the raw path stripped of
leading slashes, the cleaned path with its first directory component
removed, in that order — then the first bundle entry whose basename
matches, then the `Cannot find included file` error. -/
def loadFileFromMapAmended (path : String) (fileMap : List (String × String))
    (workingPath : String) : Except String String :=
  match (possiblePaths path workingPath).findSome?
      (fun p => jsMapGet fileMap p) with
  | some content => .ok content
  | none =>
    match fileMap.find?
        (fun kv => pathBasename kv.1 = pathBasename (cleanedPath path)) with
    | some kv => .ok kv.2
    | none => .error (strAppend "Cannot find included file: " path)

theorem tryPathsLoop_eq_findSome? (fileMap : List (String × String))
    (ps : List String) :
    tryPathsLoop fileMap ps = ps.findSome? (fun p => jsMapGet fileMap p) := by
  induction ps with
  | nil => rfl
  | cons p ps ih =>
    unfold tryPathsLoop
    rw [List.findSome?_cons]
    cases jsMapGet fileMap p with
    | none => exact ih
    | some c => rfl

theorem scanByFileName_eq_find? (fileName : String)
    (fileMap : List (String × String)) :
    scanByFileName fileName fileMap =
      (fileMap.find? (fun kv => pathBasename kv.1 = fileName)).map
        (fun kv => kv.2) := by
  induction fileMap with
  | nil => rfl
  | cons kv rest ih =>
    unfold scanByFileName
    by_cases h : pathBasename kv.1 = fileName
    · rw [if_pos h, List.find?_cons_of_pos _ (by simpa using h)]
      rfl
    · rw [if_neg h, List.find?_cons_of_neg _ (by simpa using h), ih]

/-! ## `GeometryType.clone` (src/unnamed/part_001, lines 93-116)

JS objects are references into a heap, so cloning semantics (`{...x}`
spread copy, `[...x]` array copy, plain `=` reference copy) only shows up
when the heap is explicit.  The mutable sub-objects a `GeometryType` can
hold (`size`, `meshScale`, `fromto`, `inlineScale`) are numeric records /
arrays, modelled as rational arrays in a store addressed by `Nat`. -/

/-- A heap of JS array/record objects holding numbers. -/
abbrev Heap : Type := List (List ℚ)

/-- Dereference an address (out-of-range reads the empty object). -/
def heapRead (h : Heap) (a : Nat) : List ℚ :=
  h.getD a []

/-- Overwrite the object at an address (mutation through a reference). -/
def heapWrite (h : Heap) (a : Nat) (v : List ℚ) : Heap :=
  List.set h a v

/-- Allocate a fresh object; returns the extended heap and its address. -/
def heapAlloc (h : Heap) (v : List ℚ) : Heap × Nat :=
  (h ++ [v], h.length)

/-- Mutate one element of the array at an address
(`obj[i] = x` through a reference). -/
def heapWriteAt (h : Heap) (a : Nat) (i : Nat) (x : ℚ) : Heap :=
  heapWrite h a ((heapRead h a).set i x)

/-- `GeometryType` (src/unnamed/part_001): the object-valued fields
(`size`, `meshScale`, `fromto`, `inlineScale`) hold heap references when
non-null; `type`, `filename`, `inlineVertices` hold immutable values. -/
structure GeometryType where
  type : String := ""
  size : Option Nat := none
  filename : Option String := none
  meshScale : Option Nat := none
  fromto : Option Nat := none
  inlineVertices : Option Bool := none
  inlineScale : Option Nat := none
  deriving DecidableEq, Repr

/-- Copy step for a field cloned with a fresh shallow copy
(`{...this.size}` / `[...this.meshScale]` / `[...this.inlineScale]`):
allocate a new object with the same contents. -/
def cloneField (h : Heap) : Option Nat → Heap × Option Nat
  | none => (h, none)
  | some a =>
    let r := heapAlloc h (heapRead h a)
    (r.1, some r.2)

/-- `GeometryType.clone()`:
`size`, `meshScale` and `inlineScale` get fresh shallow copies;
`filename` and `inlineVertices` are copied as values;
`fromto` is copied **by reference** (`cloned.fromto = this.fromto`). -/
def cloneGeometry (h : Heap) (g : GeometryType) : Heap × GeometryType :=
  let rSize := cloneField h g.size
  let rMesh := cloneField rSize.1 g.meshScale
  let rInline := cloneField rMesh.1 g.inlineScale
  (rInline.1,
   { type := g.type
     size := rSize.2
     filename := g.filename
     meshScale := rMesh.2
     fromto := g.fromto
     inlineVertices := g.inlineVertices
     inlineScale := rInline.2 })

theorem heapRead_append_left (h t : Heap) (a : Nat) (ha : a < h.length) :
    heapRead (h ++ t) a = heapRead h a := by
  unfold heapRead
  rw [List.getD_eq_getElem?_getD, List.getD_eq_getElem?_getD,
    List.getElem?_append_left ha]

theorem heapRead_heapWrite_ne (h : Heap) (a b : Nat) (v : List ℚ)
    (hab : a ≠ b) : heapRead (heapWrite h a v) b = heapRead h b := by
  unfold heapRead heapWrite
  rw [List.getD_eq_getElem?_getD, List.getD_eq_getElem?_getD,
    List.getElem?_set_ne hab]

theorem heapWrite_length (h : Heap) (a : Nat) (v : List ℚ) :
    (heapWrite h a v).length = h.length := by
  unfold heapWrite
  exact List.length_set h a v

/-- `cloneField` only appends: old addresses keep their contents. -/
theorem cloneField_read_old (h : Heap) (o : Option Nat) (a : Nat)
    (ha : a < h.length) :
    heapRead (cloneField h o).1 a = heapRead h a := by
  cases o with
  | none => rfl
  | some b =>
    unfold cloneField heapAlloc
    exact heapRead_append_left h _ a ha

theorem cloneField_length_le (h : Heap) (o : Option Nat) :
    h.length ≤ (cloneField h o).1.length := by
  cases o with
  | none => exact le_refl _
  | some b =>
    unfold cloneField heapAlloc
    simp

/-- The address a `cloneField` copy gets is fresh: at least the old heap
length. -/
theorem cloneField_fresh (h : Heap) (o : Option Nat) (a' : Nat)
    (h' : (cloneField h o).2 = some a') : h.length ≤ a' := by
  cases o with
  | none => simp [cloneField] at h'
  | some b =>
    unfold cloneField heapAlloc at h'
    simp only [Option.some.injEq] at h'
    omega

/-- The copy has the same contents as the original object. -/
theorem cloneField_read_new (h : Heap) (b : Nat) :
    heapRead (cloneField h (some b)).1 ((cloneField h (some b)).2.getD 0) =
      heapRead h b := by
  unfold cloneField heapAlloc heapRead
  simp


/-! ## The MJCF document tree and `addGroundPlane`
(src/src/renderer/MujocoSimulationManager.js, lines 152-192)

An MJCF document is an XML element tree.  `doc.querySelector(sel)`
returns the first element matching `sel` in document (pre-order) order;
`worldbody.querySelector('geom[type="plane"]')` searches the descendants
of the worldbody; `insertBefore(g, firstChild)` / `appendChild(g)`
together prepend `g` to the worldbody's children. -/

/-- An XML element: tag name, attributes, child elements. -/
inductive Elem where
  | mk (tag : String) (attrs : List (String × String)) (children : List Elem)

def Elem.tag : Elem → String
  | .mk t _ _ => t

def Elem.attrs : Elem → List (String × String)
  | .mk _ a _ => a

def Elem.children : Elem → List Elem
  | .mk _ _ cs => cs

/-- `el.getAttribute(name)`. -/
def getAttr (e : Elem) (name : String) : Option String :=
  (e.attrs.find? (fun kv => kv.1 = name)).map (fun kv => kv.2)

/-- Is this element a `<worldbody>`? -/
def isWorldbody (e : Elem) : Bool :=
  e.tag = "worldbody"

/-- Is this element a `<geom type="plane">`? -/
def isPlaneGeom (e : Elem) : Bool :=
  e.tag = "geom" && getAttr e "type" = some "plane"

/-- Is this element a `<geom>`? -/
def isGeom (e : Elem) : Bool :=
  e.tag = "geom"

mutual

/-- First element matching `p` in pre-order (document) order, the element
itself included — `querySelector` on the document. -/
def findFirst (p : Elem → Bool) : Elem → Option Elem
  | .mk t a cs =>
    if p (.mk t a cs) then some (.mk t a cs) else findFirstList p cs

def findFirstList (p : Elem → Bool) : List Elem → Option Elem
  | [] => none
  | c :: cs =>
    match findFirst p c with
    | some r => some r
    | none => findFirstList p cs

end

mutual

/-- Rewrite (in place) the first element matching `p` in pre-order
order, leaving everything else untouched — DOM mutation through the
reference `querySelector` returned. -/
def replaceFirst (p : Elem → Bool) (f : Elem → Elem) : Elem → Elem
  | .mk t a cs =>
    if p (.mk t a cs) then f (.mk t a cs)
    else .mk t a (replaceFirstList p f cs)

def replaceFirstList (p : Elem → Bool) (f : Elem → Elem) :
    List Elem → List Elem
  | [] => []
  | c :: cs =>
    if (findFirst p c).isSome then replaceFirst p f c :: cs
    else c :: replaceFirstList p f cs

end

mutual

/-- Number of `<geom>` elements in a subtree (the element included). -/
def geomCount : Elem → Nat
  | .mk t _ cs => (if t = "geom" then 1 else 0) + geomCountList cs

def geomCountList : List Elem → Nat
  | [] => 0
  | c :: cs => geomCount c + geomCountList cs

end

/-- `worldbody.querySelector('geom[type="plane"]')` is non-null: a plane
geom exists among the strict descendants. -/
def hasPlaneInside (e : Elem) : Bool :=
  (findFirstList isPlaneGeom e.children).isSome

/-- The injected ground geom, with the attributes the source sets, in
source order; `y` is the already-rendered ground height
(`sceneManager.groundPlane.position.y`), already rendered to a string by
the template literal. -/
def groundGeom (y : String) : Elem :=
  .mk "geom"
    [("name", "ground"),
     ("type", "plane"),
     ("size", "10 10 0.1"),
     ("rgba", "0.9 0.9 0.9 1"),
     ("pos", strAppend "0 0 " y),
     ("contype", "1"),
     ("conaffinity", "1"),
     ("condim", "3"),
     ("friction", "1 0.005 0.0001")] []

/-- Prepend `g` to the children (`insertBefore(g, firstChild)` when a
first child exists, `appendChild(g)` otherwise — both prepend). -/
def insertFirstChild (g : Elem) : Elem → Elem
  | .mk t a cs => .mk t a (g :: cs)

/-- `MujocoSimulationManager.addGroundPlane` at the element-tree level:
no worldbody ⇒ unchanged; plane geom already inside the worldbody ⇒
unchanged; otherwise prepend the ground geom to the (first) worldbody. -/
def addGroundPlane (y : String) (doc : Elem) : Elem :=
  match findFirst isWorldbody doc with
  | none => doc
  | some wb =>
    if hasPlaneInside wb then doc
    else replaceFirst isWorldbody (insertFirstChild (groundGeom y)) doc



/-! Equation and unfolding lemmas for the tree functions. -/

theorem geomCount_mk (t : String) (a : List (String × String))
    (cs : List Elem) :
    geomCount (.mk t a cs) = (if t = "geom" then 1 else 0) + geomCountList cs := by
  unfold geomCount
  rfl

theorem geomCountList_nil : geomCountList [] = 0 := by
  unfold geomCountList
  rfl

theorem geomCountList_cons (c : Elem) (cs : List Elem) :
    geomCountList (c :: cs) = geomCount c + geomCountList cs := by
  conv_lhs => unfold geomCountList

theorem findFirstList_cons (p : Elem → Bool) (c : Elem) (cs : List Elem) :
    findFirstList p (c :: cs) =
      match findFirst p c with
      | some r => some r
      | none => findFirstList p cs := by
  conv_lhs => unfold findFirstList

theorem findFirst_eq (p : Elem → Bool) (e : Elem) :
    findFirst p e = if p e then some e else findFirstList p e.children := by
  cases e with
  | mk t a cs => unfold findFirst; rfl

mutual

theorem geomCount_replaceFirst (p : Elem → Bool) (f : Elem → Elem) :
    ∀ (e w : Elem), findFirst p e = some w →
      geomCount (replaceFirst p f e) + geomCount w
        = geomCount e + geomCount (f w)
  | .mk t a cs, w, hfind => by
    unfold findFirst at hfind
    unfold replaceFirst
    by_cases hp : p (.mk t a cs)
    · rw [if_pos hp] at hfind
      rw [Option.some.injEq] at hfind
      rw [if_pos hp, ← hfind]
      omega
    · rw [if_neg hp] at hfind
      rw [if_neg hp]
      have h := geomCountList_replaceFirstList p f cs w hfind
      rw [geomCount_mk, geomCount_mk]
      omega

theorem geomCountList_replaceFirstList (p : Elem → Bool) (f : Elem → Elem) :
    ∀ (cs : List Elem) (w : Elem), findFirstList p cs = some w →
      geomCountList (replaceFirstList p f cs) + geomCount w
        = geomCountList cs + geomCount (f w)
  | [], w, hfind => by
    rw [show findFirstList p [] = none from by unfold findFirstList; rfl] at hfind
    exact absurd hfind (by simp)
  | c :: cs, w, hfind => by
    rw [findFirstList_cons] at hfind
    unfold replaceFirstList
    cases hfc : findFirst p c with
    | some r =>
      rw [hfc] at hfind
      simp only [Option.some.injEq] at hfind
      subst hfind
      simp only [Option.isSome_some, if_true]
      rw [geomCountList_cons, geomCountList_cons]
      have h := geomCount_replaceFirst p f c r hfc
      omega
    | none =>
      rw [hfc] at hfind
      simp only [Option.isSome_none, Bool.false_eq_true, if_false]
      rw [geomCountList_cons, geomCountList_cons]
      have h := geomCountList_replaceFirstList p f cs w hfind
      omega

end

mutual

theorem findFirst_replaceFirst (p : Elem → Bool) (f : Elem → Elem)
    (hP : ∀ t a cs cs', p (.mk t a cs) = p (.mk t a cs')) :
    ∀ (e w : Elem), findFirst p e = some w → p (f w) = true →
      findFirst p (replaceFirst p f e) = some (f w)
  | .mk t a cs, w, hfind, hpf => by
    unfold findFirst at hfind
    unfold replaceFirst
    by_cases hp : p (.mk t a cs)
    · rw [if_pos hp] at hfind
      rw [Option.some.injEq] at hfind
      rw [if_pos hp, findFirst_eq, if_pos (hfind ▸ hpf)]
      rw [hfind]
    · rw [if_neg hp] at hfind
      rw [if_neg hp, findFirst_eq]
      have hp' : p (.mk t a (replaceFirstList p f cs)) = false := by
        rw [hP t a (replaceFirstList p f cs) cs]
        exact Bool.eq_false_iff.mpr hp
      rw [hp']
      simp only [Bool.false_eq_true, if_false]
      exact findFirstList_replaceFirstList p f hP cs w hfind hpf

theorem findFirstList_replaceFirstList (p : Elem → Bool) (f : Elem → Elem)
    (hP : ∀ t a cs cs', p (.mk t a cs) = p (.mk t a cs')) :
    ∀ (cs : List Elem) (w : Elem), findFirstList p cs = some w →
      p (f w) = true →
      findFirstList p (replaceFirstList p f cs) = some (f w)
  | [], w, hfind, _ => by
    rw [show findFirstList p [] = none from by unfold findFirstList; rfl] at hfind
    exact absurd hfind (by simp)
  | c :: cs, w, hfind, hpf => by
    rw [findFirstList_cons] at hfind
    unfold replaceFirstList
    cases hfc : findFirst p c with
    | some r =>
      rw [hfc] at hfind
      simp only [Option.some.injEq] at hfind
      subst hfind
      simp only [Option.isSome_some, if_true]
      rw [findFirstList_cons,
        findFirst_replaceFirst p f hP c r hfc hpf]
    | none =>
      rw [hfc] at hfind
      simp only [Option.isSome_none, Bool.false_eq_true, if_false]
      rw [findFirstList_cons, hfc]
      exact findFirstList_replaceFirstList p f hP cs w hfind hpf

end


/-! ## The time-synchronisation / catch-up loop of `update`
(src/src/renderer/MujocoSimulationManager.js, lines 699-785)

While unpaused, `update(timeMS)` reads the compiled model's `timestep`,
snaps `mujoco_time` to `timeMS` when the frame gap exceeds 35 ms, and
then runs `while (this.mujoco_time < timeMS) { ...step...;
this.mujoco_time += timestep * 1000.0; }`.  The loop is modelled with
explicit fuel; the spec lemma shows any fuel of at least
`⌈(timeMS - t) / (timestep·1000)⌉` steps makes the fuel irrelevant. -/

/-- The 35 ms snap (lines 709-711): if the wall-clock gap exceeds 35 ms,
`mujoco_time` jumps to `timeMS`. -/
def syncTime (timeMS t : ℚ) : ℚ :=
  if timeMS - t > 35 then timeMS else t

/-- The stepping loop: returns how many physics steps ran and the final
`mujoco_time`.  `dt` is `timestep * 1000`. -/
def stepLoop : ℕ → ℚ → ℚ → ℚ → ℕ × ℚ
  | 0, _, _, t => (0, t)
  | n + 1, timeMS, dt, t =>
    if t < timeMS then
      let r := stepLoop n timeMS dt (t + dt)
      (r.1 + 1, r.2)
    else (0, t)

/-- The unpaused body of `update(timeMS)`: snap, then catch up. -/
def updateTime (fuel : ℕ) (timeMS timestep t : ℚ) : ℕ × ℚ :=
  stepLoop fuel timeMS (timestep * 1000) (syncTime timeMS t)

theorem stepLoop_at_target (n : ℕ) (timeMS dt : ℚ) :
    stepLoop n timeMS dt timeMS = (0, timeMS) := by
  cases n with
  | zero => rfl
  | succ n => simp [stepLoop]

/-- With enough fuel the loop executes exactly
`⌈(timeMS - t)/dt⌉⁺` steps, stops at or past `timeMS`, and advances the
clock by `dt` per step. -/
theorem stepLoop_spec (timeMS dt : ℚ) (hdt : 0 < dt) :
    ∀ (n : ℕ) (t : ℚ), (⌈(timeMS - t) / dt⌉).toNat ≤ n →
      (stepLoop n timeMS dt t).1 = (⌈(timeMS - t) / dt⌉).toNat ∧
      timeMS ≤ (stepLoop n timeMS dt t).2 ∧
      (stepLoop n timeMS dt t).2 = t + (stepLoop n timeMS dt t).1 * dt := by
  intro n
  induction n with
  | zero =>
    intro t hn
    have hceil : ⌈(timeMS - t) / dt⌉ ≤ 0 := by omega
    have hdivle : (timeMS - t) / dt ≤ 0 := by
      have := Int.ceil_le.mp (le_of_eq_of_le rfl hceil)
      simpa using this
    have ht : timeMS ≤ t := by
      by_contra hcon
      push_neg at hcon
      have := div_pos (show (0:ℚ) < timeMS - t by linarith) hdt
      linarith
    refine ⟨?_, ?_, ?_⟩
    · simp [stepLoop]
      omega
    · simpa [stepLoop] using ht
    · simp [stepLoop]
  | succ n ih =>
    intro t hn
    by_cases hlt : t < timeMS
    · have hpos : 0 < (timeMS - t) / dt := div_pos (by linarith) hdt
      have hceilpos : 0 < ⌈(timeMS - t) / dt⌉ := Int.ceil_pos.mpr hpos
      have hshift : (timeMS - (t + dt)) / dt = (timeMS - t) / dt - 1 := by
        field_simp
        ring
      have hceilshift : ⌈(timeMS - (t + dt)) / dt⌉ = ⌈(timeMS - t) / dt⌉ - 1 := by
        rw [hshift, Int.ceil_sub_one]
      have hn' : (⌈(timeMS - (t + dt)) / dt⌉).toNat ≤ n := by
        rw [hceilshift]
        omega
      obtain ⟨h1, h2, h3⟩ := ih (t + dt) hn'
      have hloop : stepLoop (n + 1) timeMS dt t =
          ((stepLoop n timeMS dt (t + dt)).1 + 1,
            (stepLoop n timeMS dt (t + dt)).2) := by
        simp [stepLoop, hlt]
      refine ⟨?_, ?_, ?_⟩
      · rw [hloop]
        simp only []
        rw [h1, hceilshift]
        omega
      · rw [hloop]
        exact h2
      · rw [hloop]
        simp only []
        rw [h3, h1]
        push_cast
        ring
    · have ht : timeMS ≤ t := le_of_not_lt hlt
      have hdivle : (timeMS - t) / dt ≤ 0 :=
        div_nonpos_of_nonpos_of_nonneg (by linarith) (le_of_lt hdt)
      have hceil : ⌈(timeMS - t) / dt⌉ ≤ 0 :=
        Int.ceil_le.mpr (by simpa using hdivle)
      refine ⟨?_, ?_, ?_⟩
      · simp [stepLoop, hlt]
        omega
      · simpa [stepLoop, hlt] using ht
      · simp [stepLoop, hlt]



mutual

theorem findFirst_prop (p : Elem → Bool) :
    ∀ (e w : Elem), findFirst p e = some w → p w = true
  | .mk t a cs, w, h => by
    unfold findFirst at h
    by_cases hp : p (.mk t a cs)
    · rw [if_pos hp] at h
      rw [Option.some.injEq] at h
      exact h ▸ hp
    · rw [if_neg hp] at h
      exact findFirstList_prop p cs w h

theorem findFirstList_prop (p : Elem → Bool) :
    ∀ (cs : List Elem) (w : Elem), findFirstList p cs = some w → p w = true
  | [], w, h => by
    rw [show findFirstList p [] = none from by unfold findFirstList; rfl] at h
    exact absurd h (by simp)
  | c :: cs, w, h => by
    rw [findFirstList_cons] at h
    cases hfc : findFirst p c with
    | some r =>
      rw [hfc] at h
      simp only [Option.some.injEq] at h
      exact h ▸ findFirst_prop p c r hfc
    | none =>
      rw [hfc] at h
      exact findFirstList_prop p cs w h

end

theorem geomCount_insertFirstChild (g e : Elem) :
    geomCount (insertFirstChild g e) = geomCount g + geomCount e := by
  cases e with
  | mk t a cs =>
    unfold insertFirstChild
    rw [geomCount_mk, geomCount_mk, geomCountList_cons]
    omega

theorem isWorldbody_tag_only (t : String) (a : List (String × String))
    (cs cs' : List Elem) :
    isWorldbody (.mk t a cs) = isWorldbody (.mk t a cs') := rfl

theorem isWorldbody_insertFirstChild (g wb : Elem)
    (h : isWorldbody wb = true) :
    isWorldbody (insertFirstChild g wb) = true := by
  cases wb with
  | mk t a cs => exact h

theorem geomCount_groundGeom (y : String) : geomCount (groundGeom y) = 1 := by
  unfold groundGeom
  rw [geomCount_mk, geomCountList_nil]
  simp

/-- **C1.**  `addGroundPlane`: on a document with a `<worldbody>` that
contains no `<geom type="plane">`, the result has exactly one more
`<geom>` than the source; the (first) worldbody of the result is the
original worldbody with a new first child — a geom named `ground`, of
type `plane`, positioned (`pos` attribute) at the rendered ground height.
If a plane geom already exists in the worldbody, or there is no
worldbody, the document is returned unchanged. -/
theorem claim1_addGroundPlane : ∀ (y : String) (doc : Elem),
    (findFirst isWorldbody doc = none → addGroundPlane y doc = doc) ∧
    (∀ wb, findFirst isWorldbody doc = some wb → hasPlaneInside wb = true →
      addGroundPlane y doc = doc) ∧
    (∀ wb, findFirst isWorldbody doc = some wb → hasPlaneInside wb = false →
      geomCount (addGroundPlane y doc) = geomCount doc + 1 ∧
      findFirst isWorldbody (addGroundPlane y doc)
        = some (insertFirstChild (groundGeom y) wb) ∧
      (insertFirstChild (groundGeom y) wb).children.head? = some (groundGeom y) ∧
      isPlaneGeom (groundGeom y) = true ∧
      getAttr (groundGeom y) "name" = some "ground" ∧
      getAttr (groundGeom y) "pos" = some (strAppend "0 0 " y)) := by
  intro y doc
  refine ⟨?_, ?_, ?_⟩
  · intro hnone
    unfold addGroundPlane
    rw [hnone]
  · intro wb hwb hplane
    unfold addGroundPlane
    rw [hwb]
    simp [hplane]
  · intro wb hwb hplane
    have hrepl : addGroundPlane y doc
        = replaceFirst isWorldbody (insertFirstChild (groundGeom y)) doc := by
      unfold addGroundPlane
      rw [hwb]
      simp [hplane]
    refine ⟨?_, ?_, ?_, ?_, ?_, ?_⟩
    · rw [hrepl]
      have hc := geomCount_replaceFirst isWorldbody
        (insertFirstChild (groundGeom y)) doc wb hwb
      rw [geomCount_insertFirstChild, geomCount_groundGeom] at hc
      omega
    · rw [hrepl]
      exact findFirst_replaceFirst isWorldbody (insertFirstChild (groundGeom y))
        isWorldbody_tag_only doc wb hwb
        (isWorldbody_insertFirstChild _ wb (findFirst_prop isWorldbody doc wb hwb))
    · cases wb with
      | mk t a cs => rfl
    · rfl
    · rfl
    · rfl

/-- The MJCF document of the spec scenario: a `<body>` with one
`<geom type="sphere" size="0.1">` and no plane geom in `<worldbody>`. -/
def docScenario : Elem :=
  .mk "mujoco" []
    [.mk "worldbody" []
      [.mk "body" []
        [.mk "geom" [("type", "sphere"), ("size", "0.1")] []]]]

/-- The worldbody of `docScenario`. -/
def wbScenario : Elem :=
  .mk "worldbody" []
    [.mk "body" []
      [.mk "geom" [("type", "sphere"), ("size", "0.1")] []]]

/-- Witness for C1 on the spec's scenario document (ground height 0):
geometry count goes from 1 to 2 and the ground geom is prepended. -/
theorem claim1_addGroundPlane_witness :
    geomCount (addGroundPlane "0" docScenario) = geomCount docScenario + 1 ∧
    findFirst isWorldbody (addGroundPlane "0" docScenario)
      = some (insertFirstChild (groundGeom "0") wbScenario) ∧
    geomCount docScenario = 1 := by
  have h := (claim1_addGroundPlane "0" docScenario).2.2 wbScenario rfl rfl
  exact ⟨h.1, h.2.1, rfl⟩



/-- **C2.**  The render→engine→render position round-trip is the exact
identity: `getPosition`'s swizzle `(a,b,c) ↦ (a,c,-b)` inverts
`toMujocoPos`'s `(x,y,z) ↦ (x,-z,y)` on every 3-vector. -/
theorem claim2_position_roundtrip :
    ∀ v : Vec3, getPositionSwizzle (toMujocoPos v) = v := by
  intro v
  cases v
  simp [toMujocoPos, getPositionSwizzle]

/-- **C3.**  Toggling the simulation on and then off again (through
`SimulationHandler.handleMujocoToggleSimulate`, which wraps
`toggleSimulation`) restores the static model's visibility to `true`,
leaves the physics render tree (`mujocoRoot`) invisible, and re-enables
the static model's drag controls; after either toggle the physics tree
and the static model are never both visible. -/
theorem claim3_toggle_visibility :
    ∀ s : ManagerState, s.paused = true → s.mujocoRoot = true →
      s.staticModel = true → s.dragControls = true →
      ((handleMujocoToggleSimulate
          (handleMujocoToggleSimulate s).1).1.staticModelVisible = true) ∧
      ((handleMujocoToggleSimulate
          (handleMujocoToggleSimulate s).1).1.mujocoRootVisible = false) ∧
      ((handleMujocoToggleSimulate
          (handleMujocoToggleSimulate s).1).1.dragControlsEnabled = true) ∧
      ¬((handleMujocoToggleSimulate s).1.mujocoRootVisible = true ∧
        (handleMujocoToggleSimulate s).1.staticModelVisible = true) ∧
      ¬((handleMujocoToggleSimulate
          (handleMujocoToggleSimulate s).1).1.mujocoRootVisible = true ∧
        (handleMujocoToggleSimulate
          (handleMujocoToggleSimulate s).1).1.staticModelVisible = true) := by
  intro s h1 h2 h3 h4
  simp [handleMujocoToggleSimulate, toggleSimulation, startSimulation,
    pauseSimulation, h1, h2, h3, h4]

/-- A loaded-paused manager state used as a concrete toggle scenario. -/
def stateLoadedPaused : ManagerState :=
  { mujocoInit := true
    isOldAPI := true
    model := true
    data := true
    simulation := false
    stateHandle := false
    mujocoRoot := true
    mujocoRootVisible := false
    mujocoRootAttached := false
    dragStateManager := true
    dragStateEnabled := false
    originalModel := true
    bodies := ["world", "base"]
    vfsWorking := ["scene.xml"]
    staticModel := true
    staticModelVisible := true
    dragControls := true
    dragControlsEnabled := true
    isLoaded := true
    isSimulating := false
    paused := true }

/-- Witness for C3 on the concrete loaded-paused state. -/
theorem claim3_toggle_visibility_witness :
    ((handleMujocoToggleSimulate
        (handleMujocoToggleSimulate stateLoadedPaused).1).1.staticModelVisible
      = true) ∧
    ((handleMujocoToggleSimulate
        (handleMujocoToggleSimulate stateLoadedPaused).1).1.mujocoRootVisible
      = false) ∧
    ((handleMujocoToggleSimulate
        (handleMujocoToggleSimulate stateLoadedPaused).1).1.dragControlsEnabled
      = true) := by
  have h := claim3_toggle_visibility stateLoadedPaused rfl rfl rfl rfl
  exact ⟨h.1, h.2.1, h.2.2.1⟩

/-- **C4.**  `clearScene` is safe from any reachable state and lands in
the unloaded state: engine handles (`model`, `data`, `simulation`), the
physics render tree and the drag manager are all null, the staged
`/working` virtual filesystem is empty, `isLoaded` and `isSimulating`
are false and `paused` is true; calling it again is a no-op
(idempotence — safe to call twice in a row).  The three hypotheses are
reachability invariants of the manager: `data` is only ever assigned on
the old-API load path (which sets `isOldAPI`), `simulation` only on the
new-API path, and the virtual filesystem can only be written after the
WASM module is initialised. -/
theorem claim4_clearScene_safe :
    ∀ s : ManagerState,
      (s.isOldAPI = false → s.data = false) →
      (s.isOldAPI = true → s.simulation = false) →
      (s.mujocoInit = false → s.vfsWorking = []) →
      (clearScene s).model = false ∧
      (clearScene s).data = false ∧
      (clearScene s).simulation = false ∧
      (clearScene s).mujocoRoot = false ∧
      (clearScene s).dragStateManager = false ∧
      (clearScene s).vfsWorking = [] ∧
      (clearScene s).isLoaded = false ∧
      (clearScene s).isSimulating = false ∧
      (clearScene s).paused = true ∧
      clearScene (clearScene s) = clearScene s := by
  intro s h1 h2 h3
  by_cases hold : s.isOldAPI = true
  · by_cases hinit : s.mujocoInit = true
    · simp [clearScene, hold, hinit, h2 hold]
    · have hinit' : s.mujocoInit = false := by simpa using hinit
      simp [clearScene, hold, hinit', h2 hold, h3 hinit']
  · have hold' : s.isOldAPI = false := by simpa using hold
    by_cases hinit : s.mujocoInit = true
    · simp [clearScene, hold', hinit, h1 hold']
    · have hinit' : s.mujocoInit = false := by simpa using hinit
      simp [clearScene, hold', hinit', h1 hold', h3 hinit']

/-- Witness for C4 on the concrete loaded-paused (old-API) state:
unloading from it — and unloading twice — lands in the unloaded state. -/
theorem claim4_clearScene_safe_witness :
    (clearScene stateLoadedPaused).model = false ∧
    (clearScene stateLoadedPaused).vfsWorking = [] ∧
    (clearScene stateLoadedPaused).isLoaded = false ∧
    (clearScene stateLoadedPaused).paused = true ∧
    clearScene (clearScene stateLoadedPaused) = clearScene stateLoadedPaused := by
  have h := claim4_clearScene_safe stateLoadedPaused (by decide) (by decide)
    (by decide)
  exact ⟨h.1, h.2.2.2.2.2.1, h.2.2.2.2.2.2.1, h.2.2.2.2.2.2.2.2.1,
    h.2.2.2.2.2.2.2.2.2⟩



/-! Support lemmas for the clone analysis. -/

/-- Observe the value a nullable object reference denotes. -/
def readOpt (h : Heap) : Option Nat → Option (List ℚ)
  | none => none
  | some a => some (heapRead h a)

theorem heapRead_append_self (h : Heap) (v : List ℚ) :
    heapRead (h ++ [v]) h.length = v := by
  unfold heapRead
  rw [List.getD_eq_getElem?_getD, List.getElem?_append_right (le_refl _)]
  simp

theorem cloneField_none_eq (h : Heap) : cloneField h none = (h, none) := rfl

theorem cloneField_some_eq (h : Heap) (a : Nat) :
    cloneField h (some a) = (h ++ [heapRead h a], some h.length) := rfl

theorem cloneGeometry_heap (h : Heap) (g : GeometryType) :
    (cloneGeometry h g).1 =
      (cloneField (cloneField (cloneField h g.size).1 g.meshScale).1
        g.inlineScale).1 := rfl

theorem cloneGeometry_size (h : Heap) (g : GeometryType) :
    (cloneGeometry h g).2.size = (cloneField h g.size).2 := rfl

theorem cloneGeometry_meshScale (h : Heap) (g : GeometryType) :
    (cloneGeometry h g).2.meshScale =
      (cloneField (cloneField h g.size).1 g.meshScale).2 := rfl

theorem cloneGeometry_inlineScale (h : Heap) (g : GeometryType) :
    (cloneGeometry h g).2.inlineScale =
      (cloneField (cloneField (cloneField h g.size).1 g.meshScale).1
        g.inlineScale).2 := rfl

/-- **C5 (counterexample).**  `GeometryType.clone` does **not** deep-copy
`fromto`: `cloned.fromto = this.fromto` copies the reference, so after
cloning a capsule geometry whose `fromto` holds the array
`[0,0,0,0,0,0]`, writing `1` into slot 0 of the *clone's* `fromto` array
changes the array the *original's* `fromto` refers to — the original's
observed `fromto` value is no longer what it was before the mutation,
contradicting the claim that clone shares no mutable sub-object and that
mutating the clone's `fromto` leaves the original unchanged. -/
theorem claim5_clone_fromto_counterexample :
    -- the clone's fromto is the very same reference as the original's
    ((cloneGeometry [[0, 0, 0, 0, 0, 0]]
        { type := "capsule", fromto := some 0 }).2.fromto = some 0) ∧
    -- before the mutation the original's fromto reads [0,0,0,0,0,0]
    (readOpt (cloneGeometry [[0, 0, 0, 0, 0, 0]]
        { type := "capsule", fromto := some 0 }).1 (some 0)
      = some [0, 0, 0, 0, 0, 0]) ∧
    -- mutating slot 0 of the clone's fromto array ...
    (readOpt
        (heapWriteAt (cloneGeometry [[0, 0, 0, 0, 0, 0]]
          { type := "capsule", fromto := some 0 }).1 0 0 1)
        (some 0)
      = some [1, 0, 0, 0, 0, 0]) ∧
    -- ... changes what the original's fromto reference observes
    (readOpt
        (heapWriteAt (cloneGeometry [[0, 0, 0, 0, 0, 0]]
          { type := "capsule", fromto := some 0 }).1 0 0 1)
        (some 0)
      ≠ readOpt (cloneGeometry [[0, 0, 0, 0, 0, 0]]
          { type := "capsule", fromto := some 0 }).1 (some 0)) := by
  refine ⟨rfl, rfl, rfl, by decide⟩

/-- **C5 (amended).**  `GeometryType.clone` returns a copy with equal
`type`, `size`, `filename`, `meshScale`, `fromto`, `inlineVertices` and
`inlineScale` values; `size`, `meshScale` and `inlineScale` are freshly
allocated shallow copies, so mutating them on the clone leaves the
original's values unchanged; but `fromto` is copied by reference and
remains shared with the original (see the counterexample).  Hypotheses:
the original's references are valid heap addresses. -/
theorem claim5_clone_amended :
    ∀ (h : Heap) (g : GeometryType),
      (∀ a, g.size = some a → a < h.length) →
      (∀ a, g.meshScale = some a → a < h.length) →
      (∀ a, g.inlineScale = some a → a < h.length) →
      ((cloneGeometry h g).2.type = g.type) ∧
      ((cloneGeometry h g).2.filename = g.filename) ∧
      ((cloneGeometry h g).2.inlineVertices = g.inlineVertices) ∧
      ((cloneGeometry h g).2.fromto = g.fromto) ∧
      (readOpt (cloneGeometry h g).1 (cloneGeometry h g).2.size
        = readOpt h g.size) ∧
      (readOpt (cloneGeometry h g).1 (cloneGeometry h g).2.meshScale
        = readOpt h g.meshScale) ∧
      (readOpt (cloneGeometry h g).1 (cloneGeometry h g).2.inlineScale
        = readOpt h g.inlineScale) ∧
      (∀ a' v, (cloneGeometry h g).2.size = some a' →
        readOpt (heapWrite (cloneGeometry h g).1 a' v) g.size
          = readOpt h g.size) ∧
      (∀ a' v, (cloneGeometry h g).2.meshScale = some a' →
        readOpt (heapWrite (cloneGeometry h g).1 a' v) g.meshScale
          = readOpt h g.meshScale) ∧
      (∀ a' v, (cloneGeometry h g).2.inlineScale = some a' →
        readOpt (heapWrite (cloneGeometry h g).1 a' v) g.inlineScale
          = readOpt h g.inlineScale) := by
  intro h g hs hm hi
  have l1 : h.length ≤ (cloneField h g.size).1.length :=
    cloneField_length_le h g.size
  have l2 : (cloneField h g.size).1.length
      ≤ (cloneField (cloneField h g.size).1 g.meshScale).1.length :=
    cloneField_length_le _ g.meshScale
  have l3 : (cloneField (cloneField h g.size).1 g.meshScale).1.length
      ≤ (cloneGeometry h g).1.length := by
    rw [cloneGeometry_heap]
    exact cloneField_length_le _ g.inlineScale
  have pres : ∀ b, b < h.length →
      heapRead (cloneGeometry h g).1 b = heapRead h b := by
    intro b hb
    rw [cloneGeometry_heap,
      cloneField_read_old _ g.inlineScale b (lt_of_lt_of_le hb (le_trans l1 l2)),
      cloneField_read_old _ g.meshScale b (lt_of_lt_of_le hb l1),
      cloneField_read_old _ g.size b hb]
  have pres2 : ∀ b, b < (cloneField h g.size).1.length →
      heapRead (cloneGeometry h g).1 b = heapRead (cloneField h g.size).1 b := by
    intro b hb
    rw [cloneGeometry_heap,
      cloneField_read_old _ g.inlineScale b (lt_of_lt_of_le hb l2),
      cloneField_read_old _ g.meshScale b hb]
  have pres3 : ∀ b,
      b < (cloneField (cloneField h g.size).1 g.meshScale).1.length →
      heapRead (cloneGeometry h g).1 b
        = heapRead (cloneField (cloneField h g.size).1 g.meshScale).1 b := by
    intro b hb
    rw [cloneGeometry_heap, cloneField_read_old _ g.inlineScale b hb]
  refine ⟨rfl, rfl, rfl, rfl, ?_, ?_, ?_, ?_, ?_, ?_⟩
  · -- size value equality
    cases hgs : g.size with
    | none => rw [cloneGeometry_size, hgs]; rfl
    | some a =>
      rw [cloneGeometry_size, hgs, cloneField_some_eq]
      show some (heapRead (cloneGeometry h g).1 h.length) = some (heapRead h a)
      rw [pres2 h.length (by rw [hgs, cloneField_some_eq]; simp)]
      rw [hgs, cloneField_some_eq]
      rw [heapRead_append_self]
  · -- meshScale value equality
    cases hgm : g.meshScale with
    | none => rw [cloneGeometry_meshScale, hgm]; rfl
    | some a =>
      have ha : a < h.length := hm a hgm
      rw [cloneGeometry_meshScale, hgm, cloneField_some_eq]
      show some (heapRead (cloneGeometry h g).1 (cloneField h g.size).1.length)
        = some (heapRead h a)
      rw [pres3 (cloneField h g.size).1.length
        (by rw [hgm, cloneField_some_eq]; simp)]
      rw [hgm, cloneField_some_eq, heapRead_append_self,
        cloneField_read_old h g.size a ha]
  · -- inlineScale value equality
    cases hgi : g.inlineScale with
    | none => rw [cloneGeometry_inlineScale, hgi]; rfl
    | some a =>
      have ha : a < h.length := hi a hgi
      rw [cloneGeometry_inlineScale, hgi, cloneField_some_eq]
      show some (heapRead (cloneGeometry h g).1
        (cloneField (cloneField h g.size).1 g.meshScale).1.length)
        = some (heapRead h a)
      rw [cloneGeometry_heap, hgi, cloneField_some_eq, heapRead_append_self,
        cloneField_read_old _ g.meshScale a (lt_of_lt_of_le ha l1),
        cloneField_read_old h g.size a ha]
  · -- mutating the clone's size copy leaves the original's size alone
    intro a' v hsome
    cases hgs : g.size with
    | none =>
      rw [cloneGeometry_size, hgs] at hsome
      exact absurd hsome (by simp [cloneField_none_eq])
    | some a =>
      have ha : a < h.length := hs a hgs
      rw [cloneGeometry_size, hgs, cloneField_some_eq] at hsome
      simp only [Option.some.injEq] at hsome
      subst hsome
      show some (heapRead (heapWrite (cloneGeometry h g).1 h.length v) a)
        = some (heapRead h a)
      rw [heapRead_heapWrite_ne (cloneGeometry h g).1 h.length a v (by omega),
        pres a ha]
  · -- mutating the clone's meshScale copy leaves the original alone
    intro a' v hsome
    cases hgm : g.meshScale with
    | none =>
      rw [cloneGeometry_meshScale, hgm] at hsome
      exact absurd hsome (by simp [cloneField_none_eq])
    | some a =>
      have ha : a < h.length := hm a hgm
      rw [cloneGeometry_meshScale, hgm, cloneField_some_eq] at hsome
      simp only [Option.some.injEq] at hsome
      subst hsome
      show some (heapRead (heapWrite (cloneGeometry h g).1
        (cloneField h g.size).1.length v) a) = some (heapRead h a)
      rw [heapRead_heapWrite_ne (cloneGeometry h g).1
        (cloneField h g.size).1.length a v (by omega), pres a ha]
  · -- mutating the clone's inlineScale copy leaves the original alone
    intro a' v hsome
    cases hgi : g.inlineScale with
    | none =>
      rw [cloneGeometry_inlineScale, hgi] at hsome
      exact absurd hsome (by simp [cloneField_none_eq])
    | some a =>
      have ha : a < h.length := hi a hgi
      rw [cloneGeometry_inlineScale, hgi, cloneField_some_eq] at hsome
      simp only [Option.some.injEq] at hsome
      subst hsome
      show some (heapRead (heapWrite (cloneGeometry h g).1
        (cloneField (cloneField h g.size).1 g.meshScale).1.length v) a)
        = some (heapRead h a)
      rw [heapRead_heapWrite_ne (cloneGeometry h g).1
        (cloneField (cloneField h g.size).1 g.meshScale).1.length a v
        (by omega), pres a ha]

/-- Witness for the amended C5 on a concrete geometry: a box whose
`size` is the array `[1, 2, 3]` at address 0; mutating the clone's size
copy leaves the original's size value `[1, 2, 3]`. -/
theorem claim5_clone_amended_witness :
    ((cloneGeometry [[1, 2, 3]] { type := "box", size := some 0 }).2.fromto
      = none) ∧
    (readOpt (cloneGeometry [[1, 2, 3]]
        { type := "box", size := some 0 }).1
      (cloneGeometry [[1, 2, 3]] { type := "box", size := some 0 }).2.size
      = some [1, 2, 3]) ∧
    (readOpt (heapWrite (cloneGeometry [[1, 2, 3]]
        { type := "box", size := some 0 }).1 1 [9, 9, 9]) (some 0)
      = some [1, 2, 3]) := by
  have h := claim5_clone_amended [[1, 2, 3]] { type := "box", size := some 0 }
    (by intro a ha; simp_all) (by intro a ha; simp at ha)
    (by intro a ha; simp at ha)
  refine ⟨h.2.2.2.1, ?_, ?_⟩
  · rw [h.2.2.2.2.1]
    rfl
  · have := h.2.2.2.2.2.2.2.1 1 [9, 9, 9] rfl
    exact this.trans rfl



/-- **C6 (counterexample).**  `loadFileFromMap` does not try only the
cleaned literal path, the workingPath-prefixed path and a filename-only
fallback in that order: before the filename fallback it also tries the
cleaned path with its first directory component removed.  On include
path `pkg/sub/a.xacro` (working path `w/`) against a bundle with keys
`zzz/a.xacro` and `sub/a.xacro`, the claimed three-step procedure
(`loadFileFromMapClaimed`) selects the first basename match
(`zzz/a.xacro` → `FIRST`), while the source selects the
drop-first-component candidate `sub/a.xacro` → `DROP`. -/
theorem claim6_loadFileFromMap_counterexample :
    loadFileFromMap "pkg/sub/a.xacro"
      [("zzz/a.xacro", "FIRST"), ("sub/a.xacro", "DROP")] "w/"
      = .ok "DROP" ∧
    loadFileFromMapClaimed "pkg/sub/a.xacro"
      [("zzz/a.xacro", "FIRST"), ("sub/a.xacro", "DROP")] "w/"
      = .ok "FIRST" ∧
    (Except.ok "DROP" : Except String String) ≠ .ok "FIRST" := by
  refine ⟨rfl, rfl, ?_⟩
  intro hcontra
  injection hcontra with h2
  exact absurd h2 (by decide)

/-- **C6 (amended).**  `loadFileFromMap` resolves an include by trying,
in order: the cleaned path, workingPath + cleaned path, the raw path,
workingPath + the raw path stripped of leading slashes, and the cleaned
path with its first directory component removed; then a filename-only
fallback over all bundle entries in order; returning the content of the
first match, and raising the fatal `Cannot find included file` error if
nothing matches (in particular on an empty bundle). -/
theorem claim6_loadFileFromMap_amended :
    ∀ (path workingPath : String) (fileMap : List (String × String)),
      loadFileFromMap path fileMap workingPath
        = loadFileFromMapAmended path fileMap workingPath ∧
      loadFileFromMap path [] workingPath
        = .error (strAppend "Cannot find included file: " path) := by
  intro path workingPath fileMap
  constructor
  · unfold loadFileFromMap loadFileFromMapAmended
    rw [tryPathsLoop_eq_findSome?, scanByFileName_eq_find?]
    cases hA : (possiblePaths path workingPath).findSome?
        (fun p => jsMapGet fileMap p) with
    | some c => rfl
    | none =>
      cases hB : fileMap.find?
          (fun kv => pathBasename kv.1 = pathBasename (cleanedPath path)) with
      | some kv => rfl
      | none => rfl
  · unfold loadFileFromMap
    rw [tryPathsLoop_eq_findSome?]
    have hA : (possiblePaths path workingPath).findSome?
        (fun p => jsMapGet ([] : List (String × String)) p) = none := by
      simp [jsMapGet]
    rw [hA]
    rfl

/-- **C7.**  The catch-up loop of `update`: with a positive compiled
timestep and any fuel at least the catch-up bound, if the frame gap
exceeds 35 ms then `mujoco_time` snaps to `timeMS` and zero physics
steps run; otherwise the loop runs at most
`⌈(timeMS − mujoco_time)/(timestep·1000)⌉` iterations (exactly that
many), terminates with `mujoco_time ≥ timeMS`, and advances
`mujoco_time` by `timestep·1000` per iteration. -/
theorem claim7_update_catchup :
    ∀ (timeMS timestep t : ℚ) (fuel : ℕ),
      0 < timestep →
      (⌈(timeMS - syncTime timeMS t) / (timestep * 1000)⌉).toNat ≤ fuel →
      (timeMS - t > 35 →
        syncTime timeMS t = timeMS ∧
        updateTime fuel timeMS timestep t = (0, timeMS)) ∧
      (¬(timeMS - t > 35) →
        (updateTime fuel timeMS timestep t).1
          ≤ (⌈(timeMS - t) / (timestep * 1000)⌉).toNat ∧
        timeMS ≤ (updateTime fuel timeMS timestep t).2 ∧
        (updateTime fuel timeMS timestep t).2
          = t + (updateTime fuel timeMS timestep t).1 * (timestep * 1000)) := by
  intro timeMS timestep t fuel hts hfuel
  have hdt : 0 < timestep * 1000 := by positivity
  constructor
  · intro hgap
    have hsync : syncTime timeMS t = timeMS := by
      unfold syncTime
      rw [if_pos hgap]
    refine ⟨hsync, ?_⟩
    unfold updateTime
    rw [hsync, stepLoop_at_target]
  · intro hgap
    have hsync : syncTime timeMS t = t := by
      unfold syncTime
      rw [if_neg hgap]
    obtain ⟨h1, h2, h3⟩ :=
      stepLoop_spec timeMS (timestep * 1000) hdt fuel (syncTime timeMS t) hfuel
    rw [hsync] at h1 h2 h3
    unfold updateTime
    rw [hsync]
    exact ⟨le_of_eq h1, h2, h3⟩

/-- Witness for C7: `timeMS = 10`, `timestep = 1`, `mujoco_time = 0`
(gap 10 ms ≤ 35 ms, so no snap), fuel 1: the loop runs once and lands at
`mujoco_time = 1000 ≥ 10`. -/
theorem claim7_update_catchup_witness :
    (updateTime 1 10 1 0).1 ≤ (⌈((10 : ℚ) - 0) / (1 * 1000)⌉).toNat ∧
    (10 : ℚ) ≤ (updateTime 1 10 1 0).2 ∧
    (updateTime 1 10 1 0).2 = 0 + (updateTime 1 10 1 0).1 * (1 * 1000) := by
  have h := claim7_update_catchup 10 1 0 1 (by norm_num)
    (by norm_num [syncTime, Int.ceil_le])
  exact h.2 (by norm_num)

/-- **C8.**  In every iteration of the stepping loop (old-API branch,
the only branch that ever applies external forces), the applied-force
array `qfrc_applied` is rebuilt from zero before `mj_step`: its pre-step
value does not depend on whatever forces were applied in previous
iterations, and with no active drag it is identically zero — so a
drag's forces never persist once the drag ends. -/
theorem claim8_forces_cleared :
    ∀ (q1 q2 : List ℚ) (drag : Option (List ℚ)),
      q1.length = q2.length →
      preStepForces true drag q1 = preStepForces true drag q2 ∧
      preStepForces true none q1 = List.replicate q1.length 0 := by
  intro q1 q2 drag hlen
  constructor
  · unfold preStepForces
    cases drag with
    | none =>
      rw [zeroForces_eq_replicate, zeroForces_eq_replicate, hlen]
      simp
    | some contrib =>
      unfold applyFT
      rw [zeroForces_eq_replicate, zeroForces_eq_replicate, hlen]
      simp
  · unfold preStepForces
    exact zeroForces_eq_replicate q1

/-- Witness for C8: two different residual force states with an active
drag produce the same pre-step forces, and with no drag the pre-step
forces are all zero. -/
theorem claim8_forces_cleared_witness :
    preStepForces true (some [2, 2]) [3, -1]
      = preStepForces true (some [2, 2]) [5, 7] ∧
    preStepForces true none [3, -1] = List.replicate 2 0 := by
  have h := claim8_forces_cleared [3, -1] [5, 7] (some [2, 2]) rfl
  exact ⟨h.1, h.2⟩

/-- **C9.**  Mesh-reference resolution: the resolver strips the
`package://` scheme and the first path component (the package name), so
`package://foo/meshes/bar.stl` normalises to `meshes/bar.stl` and
resolves against a bundle containing the key `meshes/bar.stl` (no `foo/`
prefix) to that entry, for any context directory; and the
`urdfDir`-prefixed candidate wins over the later candidates whenever the
bundle has it (first-match over the tried-path order). -/
theorem claim9_package_prefix_resolution :
    (meshPathOf "package://foo/meshes/bar.stl" = "meshes/bar.stl") ∧
    (∀ (urdfDir content : String),
      findFileInMapByPath "package://foo/meshes/bar.stl"
        [("meshes/bar.stl", content)] urdfDir = some content) ∧
    (∀ (path urdfDir content : String) (fileMap : List (String × String)),
      jsMapGet fileMap (strAppend urdfDir (meshPathOf path)) = some content →
      findFileInMapByPath path fileMap urdfDir = some content) := by
  refine ⟨rfl, ?_, ?_⟩
  · intro urdfDir content
    simp only [findFileInMapByPath]
    rw [show meshPathOf "package://foo/meshes/bar.stl" = "meshes/bar.stl"
      from rfl]
    by_cases h : strAppend urdfDir "meshes/bar.stl" = "meshes/bar.stl"
    · have h1 : jsMapGet [("meshes/bar.stl", content)]
          (strAppend urdfDir "meshes/bar.stl") = some content := by
        unfold jsMapGet
        rw [h]
        simp [List.find?]
      rw [h1]
    · have h1 : jsMapGet [("meshes/bar.stl", content)]
          (strAppend urdfDir "meshes/bar.stl") = none := by
        unfold jsMapGet
        rw [List.find?_cons_of_neg _
          (by simpa using fun hh => h hh.symm)]
        rfl
      rw [h1]
      have h2 : jsMapGet [("meshes/bar.stl", content)] "meshes/bar.stl"
          = some content := by
        simp [jsMapGet, List.find?]
      rw [h2]
  · intro path urdfDir content fileMap h
    simp only [findFileInMapByPath]
    rw [h]

/-- Witness for C9 on a concrete bundle. -/
theorem claim9_package_prefix_resolution_witness :
    findFileInMapByPath "package://foo/meshes/bar.stl"
      [("meshes/bar.stl", "MESHDATA")] "" = some "MESHDATA" := by
  exact claim9_package_prefix_resolution.2.2 "package://foo/meshes/bar.stl"
    "" "MESHDATA" [("meshes/bar.stl", "MESHDATA")] rfl

/-- **C10.**  `UnifiedRobotModel` get-after-put and overwrite laws:
after `addLink l`, `getLink l.name` returns exactly `l`; adding an
entity whose name is already a key replaces the entry (same number of
entries, no duplicate), and the key sets of `links`/`joints`/
`constraints` stay duplicate-free with the added name occurring exactly
once; the same holds for `addJoint`/`getJoint` and
`addConstraint`/`getConstraint`. -/
theorem claim10_model_map_laws :
    ∀ (m : UnifiedRobotModel) (l : Link) (j : Joint) (c : Constraint),
      ((m.addLink l).getLink l.name = some l) ∧
      ((m.addJoint j).getJoint j.name = some j) ∧
      ((m.addConstraint c).getConstraint c.name = some c) ∧
      ((mapKeys m.links).Nodup →
        (mapKeys (m.addLink l).links).Nodup ∧
        (mapKeys (m.addLink l).links).count l.name = 1) ∧
      ((mapKeys m.joints).Nodup →
        (mapKeys (m.addJoint j).joints).Nodup ∧
        (mapKeys (m.addJoint j).joints).count j.name = 1) ∧
      ((mapKeys m.constraints).Nodup →
        (mapKeys (m.addConstraint c).constraints).Nodup ∧
        (mapKeys (m.addConstraint c).constraints).count c.name = 1) ∧
      (m.links.any (fun kv => kv.1 = l.name) →
        (m.addLink l).links.length = m.links.length) ∧
      (m.joints.any (fun kv => kv.1 = j.name) →
        (m.addJoint j).joints.length = m.joints.length) ∧
      (m.constraints.any (fun kv => kv.1 = c.name) →
        (m.addConstraint c).constraints.length = m.constraints.length) := by
  intro m l j c
  refine ⟨jsMapGet_jsMapSet_self m.links l.name l,
    jsMapGet_jsMapSet_self m.joints j.name j,
    jsMapGet_jsMapSet_self m.constraints c.name c,
    fun h => ⟨jsMapSet_preserves_nodup m.links l.name l h,
      jsMapSet_count_one m.links l.name l h⟩,
    fun h => ⟨jsMapSet_preserves_nodup m.joints j.name j h,
      jsMapSet_count_one m.joints j.name j h⟩,
    fun h => ⟨jsMapSet_preserves_nodup m.constraints c.name c h,
      jsMapSet_count_one m.constraints c.name c h⟩,
    fun h => jsMapSet_length_of_mem m.links l.name l h,
    fun h => jsMapSet_length_of_mem m.joints j.name j h,
    fun h => jsMapSet_length_of_mem m.constraints c.name c h⟩

/-- A one-link model used to exercise the overwrite path. -/
def modelEx : UnifiedRobotModel :=
  { name := "robot"
    links := [("base", { name := "base" })]
    joints := []
    constraints := [] }

/-- Witness for C10: re-adding a link named `base` to a model that has
one overwrites it (length stays 1) and `getLink` returns the new link. -/
theorem claim10_model_map_laws_witness :
    ((modelEx.addLink { name := "base", visuals := ["v0"] }).getLink "base"
      = some { name := "base", visuals := ["v0"] }) ∧
    ((modelEx.addLink { name := "base", visuals := ["v0"] }).links.length
      = modelEx.links.length) ∧
    (mapKeys (modelEx.addLink { name := "base", visuals := ["v0"] }).links).count
      "base" = 1 := by
  have h := claim10_model_map_laws modelEx
    { name := "base", visuals := ["v0"] } { name := "j" } { name := "c" }
  exact ⟨h.1, h.2.2.2.2.2.2.1 (by decide), (h.2.2.2.1 (by decide)).2⟩


end AtticViewer
